import Mathlib

/-!
# Verification of the dnsbench benchmarking engine

A shallow embedding, in Lean 4, of the core of `dnsbench`
(`src/main.rs` and `src/utils.rs`): the rate-limited scheduling loop,
the outcome aggregation into per-server failure counts and latency
histograms, the mean-based ranking sort, the response-checking phase of
`resolve`, the query-message construction, and the fixed-size receive
buffer handling.

Modelling conventions:

* Machine integers (`u16`, `u64`, `usize`) are modelled as `Nat`; none of
  the modelled operations overflow on realizable inputs.
* `Instant` and `Duration` are modelled as `Nat` (abstract nanosecond
  units).  Every operation whose wall-clock duration matters is given an
  explicit duration parameter; all other operations are modelled as
  instantaneous.
* The nondeterministic outcome of a `resolve` call (its wall-clock
  duration and its returned `Result`) is supplied by an environment
  function, universally quantified in the theorems.
* `f64` values, where they matter (histogram means fed to
  `partial_cmp`), are modelled as `Option ℚ`, with `none` playing the
  role of NaN.
* `std` / third-party crate operations used by the code
  (`HashMap::insert`/`get`, `Duration::checked_sub`,
  `UdpSocket::recv_from`, hdrhistogram's `mean`, trust-dns message
  construction and parsed-record shape) are modelled from their
  documented semantics, each noted at its definition.
-/

namespace DnsBench

/-- A network address (`std::net::IpAddr`): an IPv4 or IPv6 address.
Only value equality matters to the benchmark (addresses are aggregation
keys), so the numeric payload is abstracted to a `Nat`. -/
inductive IpAddr where
  | v4 (n : ℕ)
  | v6 (n : ℕ)
deriving DecidableEq, Repr

/-- The distinct causes with which `resolve` (src/utils.rs) can fail:
socket binding, timeout configuration, nonblocking configuration, send,
receive (timeout or other error), or decoding of the response. -/
inductive ResolveError where
  | bindFail
  | setTimeoutFail
  | setNonblockingFail
  | sendFail
  | recvTimeout
  | recvFail
  | decodeFail
deriving DecidableEq, Repr

/-- The behaviour of one `resolve` call, supplied by the environment:
`callDur` is the wall-clock time the call takes (from invocation to
return), and `result` is the value it returns — `.ok elapsed` with the
measured duration, or an error. -/
structure CallSpec where
  callDur : ℕ
  result : Except ResolveError ℕ

/-- `ResultState` from src/main.rs: a raw outcome, either a success
carrying the elapsed `Duration` or a failure. -/
inductive ResultState where
  | success (elapsed : ℕ)
  | failed
deriving DecidableEq, Repr

/-- `BenchResult` from src/main.rs: one (server, outcome) record pushed
per loop iteration. -/
structure BenchResult where
  dns_server : IpAddr
  result : ResultState
deriving DecidableEq, Repr

/-- The outcome mapping at src/main.rs lines 63-66: `Ok(d)` becomes
`Success(d)`, any `Err(_)` collapses to `Failed`, the cause discarded. -/
def outcomeOf (r : Except ResolveError ℕ) : ResultState :=
  match r with
  | .ok d => ResultState.success d
  | .error _ => ResultState.failed

/-- Lookup in the model of `HashMap<&IpAddr, Instant>`: the map is kept
as an association list where `insert` conses, so lookup takes the most
recently inserted binding for the key (`HashMap::get` semantics). -/
def lookupLast (m : List (IpAddr × ℕ)) (k : IpAddr) : Option ℕ :=
  match m with
  | [] => none
  | (k', v) :: rest => if k' = k then some v else lookupLast rest k

/-- Timing log of one scheduler iteration (for stating the timing
claims): the queried server, the time slept before issuing, the instant
the request was issued, and the instant the `resolve` call returned. -/
structure IterLog where
  server : IpAddr
  wait : ℕ
  issueTime : ℕ
  endTime : ℕ
deriving DecidableEq, Repr

/-- The scheduler loop's running state (src/main.rs lines 45-72): the
current instant, the `last_start_times` map, the accumulated `results`
vector, and the timing log of the iterations executed so far. -/
structure SchedState where
  now : ℕ
  lastStartTimes : List (IpAddr × ℕ)
  results : List BenchResult
  log : List IterLog
deriving Repr

/-- The sleep duration computed at src/main.rs lines 54-59: `0` when the
server has no entry in `last_start_times`; otherwise
`rate_limit.checked_sub(now - previous).unwrap_or_default()`, which on
`Nat` is exactly truncated subtraction `rateLimit - (now - previous)`. -/
def stepWait (rateLimit : ℕ) (s : IpAddr) (st : SchedState) : ℕ :=
  match lookupLast st.lastStartTimes s with
  | none => 0
  | some prev => rateLimit - (st.now - prev)

/-- One iteration of the inner scheduler loop (src/main.rs lines 53-71):
sleep `stepWait`, issue the request (the `resolve` call takes
`cs.callDur`), take `ended = Instant::now()` after the call returns, map
the result, insert `ended` into `last_start_times`, and push the
`BenchResult`. -/
def schedStep (rateLimit : ℕ) (cs : CallSpec) (s : IpAddr) (st : SchedState) : SchedState :=
  let wait := stepWait rateLimit s st
  let issueTime := st.now + wait
  let ended := issueTime + cs.callDur
  { now := ended
    lastStartTimes := (s, ended) :: st.lastStartTimes
    results := st.results ++ [⟨s, outcomeOf cs.result⟩]
    log := st.log ++ [⟨s, wait, issueTime, ended⟩] }

/-- One pass of the inner `for dns_server in &dns_servers` loop, for
attempt environment `env : IpAddr → CallSpec`. -/
def runAttempt (rateLimit : ℕ) (env : IpAddr → CallSpec) (servers : List IpAddr)
    (st : SchedState) : SchedState :=
  servers.foldl (fun st s => schedStep rateLimit (env s) s st) st

/-- The full scheduler run (src/main.rs lines 52-72): `attempts` passes
over the server list, starting at instant `t0` with an empty map and an
empty results vector.  `env i s` gives the behaviour of the `resolve`
call for server `s` during attempt `i`. -/
def schedRun (servers : List IpAddr) (attempts rateLimit : ℕ)
    (env : ℕ → IpAddr → CallSpec) (t0 : ℕ) : SchedState :=
  (List.range attempts).foldl
    (fun st i => runAttempt rateLimit (env i) servers st)
    ⟨t0, [], [], []⟩

/-- `Duration::as_millis` (src/main.rs line 87) on a duration held in
nanoseconds.  The subsequent `try_into::<u64>()` cannot fail for any
realizable duration and is modelled as the identity. -/
def asMillis (ns : ℕ) : ℕ := ns / 1000000

/-- `DnsResult` from src/main.rs: per-server failure count and latency
histogram.  The hdrhistogram `Histogram<u64>` is modelled as the list of
recorded millisecond values in recording order; `Histogram::new(3)` is
auto-resizing, so `record` never fails and the sample count is the list
length.  (The crate's 3-significant-figure value bucketing is not
modelled; no claim here depends on bucket rounding.) -/
structure DnsResult where
  dns : IpAddr
  failed : ℕ
  hist : List ℕ
deriving DecidableEq, Repr

/-- The success-recording step of the aggregation loop (src/main.rs
lines 85-89): a `Success(duration)` outcome contributes
`duration.as_millis()` to the histogram, a `Failed` outcome contributes
nothing. -/
def successMillisOf (r : BenchResult) : Option ℕ :=
  match r.result with
  | .success d => some (asMillis d)
  | .failed => none

/-- The aggregation pass (src/main.rs lines 77-96): for each server in
input order, filter the results for that server by address equality,
count the `Failed` ones, and record each success's whole-millisecond
latency into the histogram in order. -/
def aggregate (servers : List IpAddr) (results : List BenchResult) : List DnsResult :=
  servers.map (fun s =>
    let filtered := results.filter (fun r => r.dns_server = s)
    { dns := s
      failed := (filtered.filter (fun r => r.result = ResultState.failed)).length
      hist := filtered.filterMap successMillisOf })

/-- The value of hdrhistogram's `Histogram::mean` as an exact rational:
the crate returns `0.0` when `total_count == 0` (an explicit early
return in its `mean`), and otherwise the average of the recorded
values. -/
def histMeanQ (hist : List ℕ) : ℚ :=
  if hist.isEmpty then 0 else (hist.sum : ℚ) / hist.length

/-- The `f64` produced by `Histogram::mean`, in a model where an `f64`
is `Option ℚ` with `none` standing for NaN: the mean of an empty
histogram is `0.0` (the crate's guarded early return, not a `0/0`), and
the mean of a nonempty histogram is a finite average of finite values —
in neither case NaN. -/
def histMeanF64 (hist : List ℕ) : Option ℚ :=
  if hist.isEmpty then some 0 else some ((hist.sum : ℚ) / hist.length)

/-- `f64::partial_cmp` in the `Option ℚ` model: defined (`some`) exactly
when neither operand is NaN. -/
def f64cmp (a b : Option ℚ) : Option Ordering :=
  match a, b with
  | some x, some y => some (compare x y)
  | _, _ => none

/-- The comparator closure of the ranking sort (src/main.rs line 97):
`a.hist.mean().partial_cmp(&b.hist.mean())`, before the `.unwrap()`.
The `unwrap` aborts the process exactly when this is `none`. -/
def sortCmp (a b : DnsResult) : Option Ordering :=
  f64cmp (histMeanF64 a.hist) (histMeanF64 b.hist)

/-- The contract of `slice::sort_unstable_by` with the comparator of
src/main.rs line 97: the output is some permutation of the input in
which no element compares `Greater` to a later one.  The relation (not a
function) reflects that an unstable sort leaves the order of
equal-comparing elements unspecified. -/
def SortUnstableResult (input output : List DnsResult) : Prop :=
  output.Perm input ∧
    output.Pairwise (fun a b => sortCmp a b ≠ some Ordering.gt)

/-- `a` occurs strictly before `b` in `l` (positions of first
occurrences). -/
def precedesIn (l : List DnsResult) (a b : DnsResult) : Prop :=
  a ∈ l ∧ b ∈ l ∧ l.indexOf a < l.indexOf b

/-- Wall-clock durations of the individual steps of one successful
`resolve` call (src/utils.rs lines 16-51), abstract and universally
quantified in the theorems. -/
structure ResolveDurations where
  encodeDur : ℕ
  bindDur : ℕ
  setTimeoutDur : ℕ
  setNonblockingDur : ℕ
  sendDur : ℕ
  recvDur : ℕ
  decodeDur : ℕ

/-- The instants reached during one successful `resolve` call. -/
structure ResolveTrace where
  startInstant : ℕ
  bindDone : ℕ
  cfgTimeoutDone : ℕ
  cfgNonblockingDone : ℕ
  sendDone : ℕ
  recvDone : ℕ
  elapsed : ℕ
  decodeDone : ℕ
deriving DecidableEq, Repr

/-- The timeline of a successful `resolve` call starting at instant
`t0`, in source order (src/utils.rs): build and emit the query (lines
20-27), `let start = Instant::now()` (line 28), bind the socket (line
29), set the read timeout (lines 30-33), set blocking mode (line 34),
`send_to` (lines 35-37), `recv_from` returning when the datagram
arrives (lines 38-40), `let elapsed = start.elapsed()` (line 41), then
decode (lines 42-50).  Transmission begins at `cfgNonblockingDone`; the
datagram arrives at `recvDone`. -/
def resolveTrace (t0 : ℕ) (d : ResolveDurations) : ResolveTrace :=
  let start := t0 + d.encodeDur
  let bindDone := start + d.bindDur
  let cfgTimeoutDone := bindDone + d.setTimeoutDur
  let cfgNonblockingDone := cfgTimeoutDone + d.setNonblockingDur
  let sendDone := cfgNonblockingDone + d.sendDur
  let recvDone := sendDone + d.recvDur
  { startInstant := start
    bindDone := bindDone
    cfgTimeoutDone := cfgTimeoutDone
    cfgNonblockingDone := cfgNonblockingDone
    sendDone := sendDone
    recvDone := recvDone
    elapsed := recvDone - start
    decodeDone := recvDone + d.decodeDur }

/-- Modelled from the spec: the duration `resolve` would return if, as
§4.2 of the spec describes, the start timestamp were recorded
immediately before transmission — that is, after socket creation and
timeout configuration — with the end timestamp at datagram arrival. -/
def specElapsed (t0 : ℕ) (d : ResolveDurations) : ℕ :=
  (resolveTrace t0 d).recvDone - (resolveTrace t0 d).cfgNonblockingDone

/-- `UdpSocket::recv_from` into a caller-supplied buffer: the received
datagram's first `min |buf| |datagram|` bytes overwrite the front of the
buffer (a longer datagram is truncated), the rest of the buffer is left
untouched, and the number of bytes written is returned alongside. -/
def recvFrom (buf datagram : List ℕ) : List ℕ × ℕ :=
  (datagram.take buf.length ++ buf.drop (min buf.length datagram.length),
    min buf.length datagram.length)

/-- The byte buffer handed to `Message::from_vec` at src/utils.rs line
42: the fixed zero-initialized 512-byte array (line 19) after
`recv_from` (lines 38-40), whose returned byte count the code drops. -/
def decoderInput (datagram : List ℕ) : List ℕ :=
  (recvFrom (List.replicate 512 0) datagram).1

/-- DNS record types distinguished by the code: `RecordType::A` (IPv4
address record), `RecordType::AAAA` (IPv6 address record), or any
other. -/
inductive RecType where
  | A
  | AAAA
  | other
deriving DecidableEq, Repr

/-- trust-dns `RData`, restricted to what the code observes: an IPv4
address payload, an IPv6 address payload, or some other record data. -/
inductive RData where
  | a (ip : IpAddr)
  | aaaa (ip : IpAddr)
  | other
deriving DecidableEq, Repr

/-- trust-dns `RData::to_ip_addr`: `Some` exactly for A and AAAA
payloads. -/
def RData.toIpAddr : RData → Option IpAddr
  | .a ip => some ip
  | .aaaa ip => some ip
  | .other => none

/-- A parsed answer record as the code observes it: `record_type()` and
`data()`, the latter an `Option` (trust-dns parses a record whose
RDLENGTH is zero to one with no rdata). -/
structure DnsRecord where
  rrType : RecType
  rdata : Option RData
deriving DecidableEq, Repr

/-- The guarantee trust-dns parsing gives about each answer record of a
message that `Message::from_vec` accepted: when rdata is present it
matches the record type — an A record carries an IPv4 payload, an AAAA
record an IPv6 payload (a type-consistent payload of the wrong length
makes `from_vec` itself fail) — and rdata is absent only for a
zero-length RDATA field. -/
def WFRecord (r : DnsRecord) : Prop :=
  (r.rrType = RecType.A → r.rdata = none ∨ ∃ ip, r.rdata = some (RData.a ip)) ∧
    (r.rrType = RecType.AAAA → r.rdata = none ∨ ∃ ip, r.rdata = some (RData.aaaa ip))

/-- How the answer-checking loop can end: fall through (`Ok`), return an
error through `?`, or abort the process (the `unwrap` on `data()`). -/
inductive CheckOutcome where
  | ok
  | error
  | panic
deriving DecidableEq, Repr

/-- The body of the answer-checking loop (src/utils.rs lines 43-50) for
one record: records whose type is not `RecordType::A` are skipped;
for an A record, `answer.data().unwrap()` aborts when rdata is absent,
and otherwise `to_ip_addr().context(...)?` errors when the payload is
not an address payload. -/
def checkAnswer (r : DnsRecord) : CheckOutcome :=
  if r.rrType = RecType.A then
    match r.rdata with
    | none => CheckOutcome.panic
    | some rd =>
      match rd.toIpAddr with
      | some _ => CheckOutcome.ok
      | none => CheckOutcome.error
  else CheckOutcome.ok

/-- The answer-checking loop over the parsed message's answer records,
stopping at the first error or abort. -/
def checkAnswers : List DnsRecord → CheckOutcome
  | [] => CheckOutcome.ok
  | r :: rest =>
    match checkAnswer r with
    | CheckOutcome.ok => checkAnswers rest
    | o => o

/-- The whole decode phase of `resolve` (src/utils.rs lines 42-50):
`Message::from_vec` is external trust-dns code, so its verdict on the
buffer is a parameter — `.error` when the buffer is malformed or
truncated (surfaced by `.context(...)?`), `.ok answers` with the parsed
answer records otherwise — followed by the answer-checking loop. -/
def decodePhase (parseResult : Except Unit (List DnsRecord)) : CheckOutcome :=
  match parseResult with
  | .error _ => CheckOutcome.error
  | .ok answers => checkAnswers answers

/-- trust-dns `MessageType`. -/
inductive MessageType where
  | query
  | response
deriving DecidableEq, Repr

/-- trust-dns `OpCode`, restricted to what the code uses: `Query`
(standard query) or any other. -/
inductive OpCode where
  | query
  | other
deriving DecidableEq, Repr

/-- One question entry (`Query::query(name, query_type)`), with the
domain name abstracted to a string. -/
structure DnsQuery where
  name : String
  queryType : RecType
deriving DecidableEq, Repr

/-- The header and question fields of a trust-dns `Message` that the
code sets and that the binary encoder `msg.emit` writes into the wire
message faithfully. -/
structure DnsMessage where
  id : ℕ
  messageType : MessageType
  opCode : OpCode
  recursionDesired : Bool
  queries : List DnsQuery
deriving DecidableEq, Repr

/-- `Message::new()`: the default header (id 0, query type, standard
query opcode, recursion not desired, no questions). -/
def messageNew : DnsMessage :=
  { id := 0
    messageType := MessageType.query
    opCode := OpCode.query
    recursionDesired := false
    queries := [] }

/-- The query message built at src/utils.rs lines 20-25: starting from
`Message::new()`, set the random 16-bit id, set the message type to
`Query`, add the single `Query::query(domain_name, RecordType::A)`
question, set the opcode to `Query`, and set recursion desired. -/
def buildQuery (domain : String) (id : ℕ) : DnsMessage :=
  { messageNew with
    id := id
    messageType := MessageType.query
    opCode := OpCode.query
    recursionDesired := true
    queries := messageNew.queries ++ [⟨domain, RecType.A⟩] }

/-! ## Characterization of the scheduler's emitted outcomes -/

/-- The outcome stream the scheduler emits: one `BenchResult` per
(attempt, server) pair, in attempt-major, server-minor order. -/
def expectedResults (servers : List IpAddr) (attempts : ℕ)
    (env : ℕ → IpAddr → CallSpec) : List BenchResult :=
  (List.range attempts).flatMap
    (fun i => servers.map (fun s => ⟨s, outcomeOf (env i s).result⟩))

theorem runAttempt_results (rl : ℕ) (env : IpAddr → CallSpec) :
    ∀ (servers : List IpAddr) (st : SchedState),
      (runAttempt rl env servers st).results =
        st.results ++ servers.map (fun s => ⟨s, outcomeOf (env s).result⟩) := by
  intro servers
  induction servers with
  | nil => intro st; simp [runAttempt]
  | cons a l ih =>
    intro st
    have h : runAttempt rl env (a :: l) st = runAttempt rl env l (schedStep rl (env a) a st) := by
      simp [runAttempt]
    rw [h, ih]
    simp [schedStep]

theorem foldAttempts_results (rl : ℕ) (env : ℕ → IpAddr → CallSpec)
    (servers : List IpAddr) :
    ∀ (I : List ℕ) (st : SchedState),
      ((I.foldl (fun st i => runAttempt rl (env i) servers st) st).results) =
        st.results ++
          I.flatMap (fun i => servers.map (fun s => ⟨s, outcomeOf (env i s).result⟩)) := by
  intro I
  induction I with
  | nil => intro st; simp
  | cons i I ih =>
    intro st
    rw [List.foldl_cons, ih, runAttempt_results, List.flatMap_cons, List.append_assoc]

/-- The `results` vector of a full run is exactly the expected outcome
stream: nothing is skipped or retried, whatever the per-request
behaviours are. -/
theorem schedRun_results (servers : List IpAddr) (attempts rl : ℕ)
    (env : ℕ → IpAddr → CallSpec) (t0 : ℕ) :
    (schedRun servers attempts rl env t0).results = expectedResults servers attempts env := by
  unfold schedRun expectedResults
  rw [foldAttempts_results]
  simp

theorem expectedResults_length (servers : List IpAddr) (attempts : ℕ)
    (env : ℕ → IpAddr → CallSpec) :
    (expectedResults servers attempts env).length = attempts * servers.length := by
  unfold expectedResults
  rw [List.length_flatMap]
  have h : (List.range attempts).map
      (List.length ∘ fun i => servers.map (fun s => (⟨s, outcomeOf (env i s).result⟩ : BenchResult))) =
      List.replicate (List.range attempts).length servers.length := by
    rw [← List.map_const]
    apply List.map_congr_left
    intro i _
    simp
  rw [h, List.sum_replicate, smul_eq_mul, List.length_range]

/-- C8: Per-request error handling in the scheduler loop.  Every result
returned by a `resolve` call is mapped to a raw outcome — a success
carries the elapsed duration, every error collapses to `Failed` with the
cause discarded (any two causes yield the same outcome) — and no
per-request failure aborts the run: for every environment, including
all-failing ones, the run emits exactly `attempts * servers.length`
outcomes, namely the full attempt-major stream. -/
theorem scheduler_emits_all_outcomes (servers : List IpAddr) (attempts rl : ℕ)
    (env : ℕ → IpAddr → CallSpec) (t0 : ℕ) :
    (schedRun servers attempts rl env t0).results = expectedResults servers attempts env ∧
    (schedRun servers attempts rl env t0).results.length = attempts * servers.length ∧
    (∀ d : ℕ, outcomeOf (Except.ok d) = ResultState.success d) ∧
    (∀ e e' : ResolveError,
      outcomeOf (Except.error e) = ResultState.failed ∧
      outcomeOf (Except.error e) = outcomeOf (Except.error e')) := by
  refine ⟨schedRun_results .., ?_, fun d => rfl, fun e e' => ⟨rfl, rfl⟩⟩
  rw [schedRun_results, expectedResults_length]

/-! ## Counting outcomes per server -/

theorem failed_add_success_eq_length (l : List BenchResult) :
    (l.filter (fun r => r.result = ResultState.failed)).length +
      (l.filterMap successMillisOf).length = l.length := by
  induction l with
  | nil => rfl
  | cons r l ih =>
    rcases r with ⟨s, res⟩
    cases res with
    | success d =>
      simp only [List.filter_cons, List.filterMap_cons, successMillisOf]
      simp only [List.length_cons]
      simp
      omega
    | failed =>
      simp only [List.filter_cons, List.filterMap_cons, successMillisOf]
      simp only [List.length_cons]
      simp
      omega

theorem filter_map_mk_length (s : IpAddr) (g : IpAddr → ResultState) :
    ∀ servers : List IpAddr,
      ((servers.map (fun x => (⟨x, g x⟩ : BenchResult))).filter
        (fun r => r.dns_server = s)).length =
      (servers.filter (fun x => x = s)).length := by
  intro servers
  induction servers with
  | nil => rfl
  | cons a l ih =>
    by_cases h : a = s <;> simp [List.filter_cons, h, ih]

theorem expectedResults_filter_length (servers : List IpAddr) (attempts : ℕ)
    (env : ℕ → IpAddr → CallSpec) (s : IpAddr) :
    ((expectedResults servers attempts env).filter (fun r => r.dns_server = s)).length =
      attempts * (servers.filter (fun x => x = s)).length := by
  unfold expectedResults
  rw [List.filter_flatMap, List.length_flatMap]
  have h : (List.range attempts).map
      (List.length ∘ fun i =>
        (servers.map (fun x => (⟨x, outcomeOf (env i x).result⟩ : BenchResult))).filter
          (fun r => r.dns_server = s)) =
      List.replicate (List.range attempts).length (servers.filter (fun x => x = s)).length := by
    rw [← List.map_const]
    apply List.map_congr_left
    intro i _
    simp only [Function.comp, Function.const]
    rw [filter_map_mk_length]
  rw [h, List.sum_replicate, smul_eq_mul, List.length_range]

theorem filter_eq_length_one_of_nodup (s : IpAddr) :
    ∀ servers : List IpAddr, servers.Nodup → s ∈ servers →
      (servers.filter (fun x => x = s)).length = 1 := by
  intro servers
  induction servers with
  | nil => intro _ h; cases h
  | cons a l ih =>
    intro hnd hmem
    rw [List.nodup_cons] at hnd
    rcases List.mem_cons.1 hmem with rfl | hl
    · have hnone : l.filter (fun x => x = s) = [] := by
        rw [List.filter_eq_nil_iff]
        intro x hx
        simp only [decide_eq_true_eq]
        intro hxs
        exact hnd.1 (hxs ▸ hx)
      simp [List.filter_cons, hnone]
    · have hne : ¬ (a = s) := fun h => hnd.1 (h ▸ hl)
      simp [List.filter_cons, hne, ih hnd.2 hl]

/-- The per-server summary row the aggregation produces for server `s`. -/
theorem aggregate_row (servers : List IpAddr) (results : List BenchResult) (row : DnsResult)
    (h : row ∈ aggregate servers results) :
    ∃ s ∈ servers,
      row = { dns := s
              failed := ((results.filter (fun r => r.dns_server = s)).filter
                (fun r => r.result = ResultState.failed)).length
              hist := (results.filter (fun r => r.dns_server = s)).filterMap successMillisOf } := by
  unfold aggregate at h
  rcases List.mem_map.1 h with ⟨s, hs, hrow⟩
  exact ⟨s, hs, hrow.symm⟩

/-- C1 (amended): provided the input server list contains no duplicate
addresses, every run satisfies the attempts invariant: each aggregated
row has `failed + histogram sample count = attempts`, and the sum over
all rows is `attempts * number of servers`. -/
theorem per_server_attempts_invariant (servers : List IpAddr) (attempts rl : ℕ)
    (env : ℕ → IpAddr → CallSpec) (t0 : ℕ) (hnd : servers.Nodup) :
    (∀ row ∈ aggregate servers (schedRun servers attempts rl env t0).results,
      row.failed + row.hist.length = attempts) ∧
    ((aggregate servers (schedRun servers attempts rl env t0).results).map
      (fun row => row.failed + row.hist.length)).sum = attempts * servers.length := by
  have hrow : ∀ s ∈ servers,
      (((schedRun servers attempts rl env t0).results.filter
          (fun r => r.dns_server = s)).filter
        (fun r => r.result = ResultState.failed)).length +
      (((schedRun servers attempts rl env t0).results.filter
          (fun r => r.dns_server = s)).filterMap successMillisOf).length = attempts := by
    intro s hs
    rw [failed_add_success_eq_length, schedRun_results, expectedResults_filter_length,
      filter_eq_length_one_of_nodup s servers hnd hs, Nat.mul_one]
  constructor
  · intro row hmem
    rcases aggregate_row _ _ _ hmem with ⟨s, hs, rfl⟩
    exact hrow s hs
  · unfold aggregate
    rw [List.map_map]
    have h : servers.map
        ((fun row : DnsResult => row.failed + row.hist.length) ∘ fun s =>
          { dns := s
            failed := (((schedRun servers attempts rl env t0).results.filter
                (fun r => r.dns_server = s)).filter
              (fun r => r.result = ResultState.failed)).length
            hist := ((schedRun servers attempts rl env t0).results.filter
              (fun r => r.dns_server = s)).filterMap successMillisOf }) =
        List.replicate servers.length attempts := by
      rw [← List.map_const]
      apply List.map_congr_left
      intro s hs
      exact hrow s hs
    rw [h, List.sum_replicate, smul_eq_mul, Nat.mul_comm]

/-- A concrete witness for the amended C1 invariant: two distinct
servers, one attempt each, the first succeeding in 2ms and the second
timing out. -/
def c1env : ℕ → IpAddr → CallSpec := fun _ s =>
  match s with
  | .v4 1 => ⟨2000000, Except.ok 2000000⟩
  | _ => ⟨3000000000, Except.error ResolveError.recvTimeout⟩

theorem per_server_attempts_invariant_witness :
    ([IpAddr.v4 1, IpAddr.v4 2] : List IpAddr).Nodup ∧
    (∀ row ∈ aggregate [IpAddr.v4 1, IpAddr.v4 2]
        (schedRun [IpAddr.v4 1, IpAddr.v4 2] 1 5 c1env 0).results,
      row.failed + row.hist.length = 1) ∧
    ((aggregate [IpAddr.v4 1, IpAddr.v4 2]
        (schedRun [IpAddr.v4 1, IpAddr.v4 2] 1 5 c1env 0).results).map
      (fun row => row.failed + row.hist.length)).sum = 1 * 2 :=
  ⟨by decide,
    (per_server_attempts_invariant [IpAddr.v4 1, IpAddr.v4 2] 1 5 c1env 0 (by decide)).1,
    (per_server_attempts_invariant [IpAddr.v4 1, IpAddr.v4 2] 1 5 c1env 0 (by decide)).2⟩

/-- An environment in which every request fails. -/
def allFailEnv : ℕ → IpAddr → CallSpec := fun _ _ =>
  ⟨3000000000, Except.error ResolveError.recvTimeout⟩

/-- C1 (counterexample): with a duplicated address in the input list the
claimed invariant fails — for `servers = [1.1.1.1, 1.1.1.1]` and
`attempts = 1` with every request failing, each aggregated row counts
both outcomes (`failed + samples = 2 ≠ 1`), and the total is `4`, not
`attempts * number_of_servers = 2`. -/
theorem per_server_attempts_invariant_cex :
    ((aggregate [IpAddr.v4 1, IpAddr.v4 1]
        (schedRun [IpAddr.v4 1, IpAddr.v4 1] 1 5 allFailEnv 0).results).map
      (fun row => row.failed + row.hist.length)) = [2, 2] ∧
    ¬ (∀ row ∈ aggregate [IpAddr.v4 1, IpAddr.v4 1]
        (schedRun [IpAddr.v4 1, IpAddr.v4 1] 1 5 allFailEnv 0).results,
      row.failed + row.hist.length = 1) ∧
    ((aggregate [IpAddr.v4 1, IpAddr.v4 1]
        (schedRun [IpAddr.v4 1, IpAddr.v4 1] 1 5 allFailEnv 0).results).map
      (fun row => row.failed + row.hist.length)).sum ≠ 1 * 2 := by
  refine ⟨by decide, ?_, by decide⟩
  intro h
  have h2 := h ⟨IpAddr.v4 1, 2, []⟩ (by decide)
  simp at h2

/-! ## Timing behaviour of the scheduler loop -/

/-- C2: what the loop actually stores into `last_start_times`.  In every
iteration the inserted timestamp is `ended`, the instant taken after the
`resolve` call returns — issue time plus the call's duration — not the
pre-issue instant; concretely, for a single server whose one request
takes 7 time units from an issue at instant 0, the map afterwards holds
7 (the completion time), different from the issue time 0. -/
theorem stores_completion_time :
    (∀ (rl : ℕ) (cs : CallSpec) (s : IpAddr) (st : SchedState),
      lookupLast (schedStep rl cs s st).lastStartTimes s =
        some (st.now + stepWait rl s st + cs.callDur)) ∧
    (schedRun [IpAddr.v4 1] 1 3 (fun _ _ => ⟨7, Except.ok 5⟩) 0).log =
      [⟨IpAddr.v4 1, 0, 0, 7⟩] ∧
    lookupLast (schedRun [IpAddr.v4 1] 1 3 (fun _ _ => ⟨7, Except.ok 5⟩) 0).lastStartTimes
      (IpAddr.v4 1) = some 7 ∧
    (7 : ℕ) ≠ 0 := by
  refine ⟨?_, by decide, by decide, by decide⟩
  intro rl cs s st
  simp [schedStep, lookupLast]

theorem waits_zero_of_fresh (rl : ℕ) (env : IpAddr → CallSpec) :
    ∀ (l : List IpAddr) (st : SchedState), l.Nodup →
      (∀ s ∈ l, lookupLast st.lastStartTimes s = none) →
      ∀ e ∈ (l.foldl (fun st s => schedStep rl (env s) s st) st).log,
        e ∈ st.log ∨ e.wait = 0 := by
  intro l
  induction l with
  | nil => intro st _ _ e he; exact Or.inl he
  | cons a l ih =>
    intro st hnd hfresh e he
    rw [List.nodup_cons] at hnd
    rw [List.foldl_cons] at he
    have hwait : stepWait rl a st = 0 := by
      simp [stepWait, hfresh a (List.mem_cons_self a l)]
    have hfresh2 : ∀ s ∈ l, lookupLast (schedStep rl (env a) a st).lastStartTimes s = none := by
      intro s hs
      have hne : ¬ (a = s) := fun h => hnd.1 (h ▸ hs)
      simp [schedStep, lookupLast, hne]
      exact hfresh s (List.mem_cons_of_mem a hs)
    rcases ih (schedStep rl (env a) a st) hnd.2 hfresh2 e he with hin | hz
    · have hlog : (schedStep rl (env a) a st).log =
          st.log ++ [⟨a, stepWait rl a st, st.now + stepWait rl a st,
            st.now + stepWait rl a st + (env a).callDur⟩] := rfl
      rw [hlog, List.mem_append] at hin
      rcases hin with hin | hone
      · exact Or.inl hin
      · right
        rcases List.mem_singleton.1 hone with rfl
        exact hwait
    · exact Or.inr hz

/-- C6: the enforced delay before each request.  (1) A server with no
entry in `last_start_times` (its first request) incurs no delay.
(2) Otherwise, with `prev` the stored timestamp, the loop sleeps exactly
`rateLimit - (now - prev)` when `now - prev < rateLimit` and zero
otherwise — the `checked_sub`/`unwrap_or_default` pair, never an
underflow error.  (3) The iteration then issues the request right after
that wait.  (4) The wait for `s` ignores entries of other servers.
(5) Consequently, in a one-pass run over distinct servers every request
is issued with zero delay: back-to-back requests to different servers
are never spaced. -/
theorem rate_limit_wait (rl : ℕ) (s : IpAddr) (st : SchedState) :
    (lookupLast st.lastStartTimes s = none → stepWait rl s st = 0) ∧
    (∀ prev, lookupLast st.lastStartTimes s = some prev →
      (st.now - prev < rl → stepWait rl s st = rl - (st.now - prev)) ∧
      (rl ≤ st.now - prev → stepWait rl s st = 0)) ∧
    (∀ cs : CallSpec, (schedStep rl cs s st).log = st.log ++
      [⟨s, stepWait rl s st, st.now + stepWait rl s st,
        st.now + stepWait rl s st + cs.callDur⟩]) ∧
    (∀ (s' : IpAddr) (v : ℕ), s' ≠ s →
      stepWait rl s ⟨st.now, (s', v) :: st.lastStartTimes, st.results, st.log⟩ =
        stepWait rl s st) ∧
    (∀ (servers : List IpAddr) (env : ℕ → IpAddr → CallSpec) (t0 : ℕ),
      servers.Nodup → ∀ e ∈ (schedRun servers 1 rl env t0).log, e.wait = 0) := by
  refine ⟨?_, ?_, fun cs => rfl, ?_, ?_⟩
  · intro h; simp [stepWait, h]
  · intro prev h
    constructor
    · intro _; simp [stepWait, h]
    · intro hge; simp [stepWait, h]; omega
  · intro s' v hne; simp [stepWait, lookupLast, hne]
  · intro servers env t0 hnd e he
    have h1 : schedRun servers 1 rl env t0 =
        servers.foldl (fun st x => schedStep rl (env 0 x) x st) ⟨t0, [], [], []⟩ := by
      simp [schedRun, runAttempt, List.range_succ]
    rw [h1] at he
    have := waits_zero_of_fresh rl (env 0) servers ⟨t0, [], [], []⟩ hnd
      (fun s _ => rfl) e he
    rcases this with hin | hz
    · cases hin
    · exact hz

def c6stPrev : SchedState := ⟨4, [(IpAddr.v4 1, 2)], [], []⟩

def c6stLate : SchedState := ⟨10, [(IpAddr.v4 1, 2)], [], []⟩

theorem rate_limit_wait_witness :
    stepWait 5 (IpAddr.v4 1) ⟨0, [], [], []⟩ = 0 ∧
    stepWait 5 (IpAddr.v4 1) c6stPrev = 5 - (4 - 2) ∧
    stepWait 5 (IpAddr.v4 1) c6stLate = 0 ∧
    (schedStep 5 ⟨7, Except.ok 5⟩ (IpAddr.v4 1) c6stPrev).log =
      [⟨IpAddr.v4 1, stepWait 5 (IpAddr.v4 1) c6stPrev,
        4 + stepWait 5 (IpAddr.v4 1) c6stPrev,
        4 + stepWait 5 (IpAddr.v4 1) c6stPrev + 7⟩] ∧
    stepWait 5 (IpAddr.v4 1) ⟨4, (IpAddr.v4 2, 3) :: [(IpAddr.v4 1, 2)], [], []⟩ =
      stepWait 5 (IpAddr.v4 1) c6stPrev ∧
    (⟨IpAddr.v4 2, 0, 2, 3⟩ : IterLog).wait = 0 :=
  ⟨(rate_limit_wait 5 (IpAddr.v4 1) ⟨0, [], [], []⟩).1 rfl,
    ((rate_limit_wait 5 (IpAddr.v4 1) c6stPrev).2.1 2 rfl).1 (by decide),
    ((rate_limit_wait 5 (IpAddr.v4 1) c6stLate).2.1 2 rfl).2 (by decide),
    (rate_limit_wait 5 (IpAddr.v4 1) c6stPrev).2.2.1 ⟨7, Except.ok 5⟩,
    (rate_limit_wait 5 (IpAddr.v4 1) c6stPrev).2.2.2.1 (IpAddr.v4 2) 3 (by decide),
    (rate_limit_wait 5 (IpAddr.v4 2) c6stPrev).2.2.2.2 [IpAddr.v4 1, IpAddr.v4 2]
      (fun _ _ => ⟨1, Except.ok 1⟩) 1 (by decide) ⟨IpAddr.v4 2, 0, 2, 3⟩ (by decide)⟩

/-! ## The measured interval inside `resolve` -/

/-- Step durations for a concrete `resolve` call: encoding takes 1 unit,
binding the socket 5, each configuration call 1, the send 1, the wait
for the response 1, decoding 1. -/
def c3durs : ResolveDurations := ⟨1, 5, 1, 1, 1, 1, 1⟩

/-- C3 (counterexample): the start timestamp is taken before socket
creation, not immediately before transmission.  With the concrete step
durations above, the code's measured interval is 9 units (it contains
the 5-unit socket bind and the two 1-unit configuration calls), while an
interval started immediately before transmission — what the claim
describes — would be 2 units; and the start instant (1) strictly
precedes the instant socket creation finishes (6). -/
theorem measured_interval_cex :
    (resolveTrace 0 c3durs).elapsed = 9 ∧
    specElapsed 0 c3durs = 2 ∧
    (9 : ℕ) ≠ 2 ∧
    (resolveTrace 0 c3durs).startInstant = 1 ∧
    (resolveTrace 0 c3durs).startInstant + c3durs.bindDur = (resolveTrace 0 c3durs).bindDone := by
  refine ⟨by decide, by decide, by decide, by decide, by decide⟩

/-- C3 (amended): in every successful `resolve` call the start timestamp
is recorded immediately after encoding and before socket creation,
timeout configuration and transmission; the end timestamp is recorded
immediately after the response datagram arrives; and the returned
duration is end minus start — so it excludes encoding and decoding time
but includes socket creation, socket configuration, transmission and the
wait for the response. -/
theorem measured_interval (t0 : ℕ) (d : ResolveDurations) :
    (resolveTrace t0 d).startInstant = t0 + d.encodeDur ∧
    (resolveTrace t0 d).bindDone = (resolveTrace t0 d).startInstant + d.bindDur ∧
    (resolveTrace t0 d).elapsed =
      (resolveTrace t0 d).recvDone - (resolveTrace t0 d).startInstant ∧
    (resolveTrace t0 d).elapsed =
      d.bindDur + d.setTimeoutDur + d.setNonblockingDur + d.sendDur + d.recvDur ∧
    (resolveTrace t0 d).decodeDone = (resolveTrace t0 d).recvDone + d.decodeDur := by
  refine ⟨rfl, rfl, rfl, ?_, rfl⟩
  simp only [resolveTrace]
  omega

/-! ## The ranking comparator and sort -/

theorem histMeanF64_eq_some (hist : List ℕ) :
    histMeanF64 hist = some (histMeanQ hist) := by
  by_cases h : hist.isEmpty <;> simp [histMeanF64, histMeanQ, h]

theorem sortCmp_eq_compare (a b : DnsResult) :
    sortCmp a b = some (compare (histMeanQ a.hist) (histMeanQ b.hist)) := by
  rw [sortCmp, histMeanF64_eq_some, histMeanF64_eq_some]
  rfl

theorem sortCmp_ne_gt_iff (a b : DnsResult) :
    sortCmp a b ≠ some Ordering.gt ↔ histMeanQ a.hist ≤ histMeanQ b.hist := by
  rw [sortCmp_eq_compare]
  simp only [ne_eq, Option.some.injEq]
  rw [← not_lt (a := histMeanQ b.hist) (b := histMeanQ a.hist)]
  exact not_congr compare_gt_iff_gt

/-- C5: the ranking comparator is total: a histogram's mean — `0.0` for
a server with zero successful samples, by hdrhistogram's guarded early
return, and a finite average otherwise — is never NaN, so
`partial_cmp` on two means is always `Some` and the `unwrap` in the sort
comparator of src/main.rs line 97 can never hit its panic branch;
consequently a sorted output exists for every summary list, including
lists containing empty-histogram servers. -/
theorem sort_comparator_total :
    (∀ hist : List ℕ, (histMeanF64 hist).isSome = true) ∧
    histMeanF64 [] = some 0 ∧
    (∀ a b : DnsResult, (sortCmp a b).isSome = true) ∧
    (∀ input : List DnsResult, ∃ output, SortUnstableResult input output) := by
  refine ⟨?_, rfl, ?_, ?_⟩
  · intro hist; rw [histMeanF64_eq_some]; rfl
  · intro a b; rw [sortCmp_eq_compare]; rfl
  · intro input
    refine ⟨input.mergeSort (fun a b => decide (histMeanQ a.hist ≤ histMeanQ b.hist)), ?_, ?_⟩
    · exact List.mergeSort_perm input _
    · have hs := @List.sorted_mergeSort DnsResult
        (fun a b : DnsResult => decide (histMeanQ a.hist ≤ histMeanQ b.hist))
        (fun a b c hab hbc => by
          simp only [decide_eq_true_eq] at *
          exact le_trans hab hbc)
        (fun a b => by
          simp only [Bool.or_eq_true, decide_eq_true_eq]
          exact le_total (histMeanQ a.hist) (histMeanQ b.hist))
        input
      refine hs.imp ?_
      intro a b hab
      simp only [decide_eq_true_eq] at hab
      exact (sortCmp_ne_gt_iff a b).2 hab

/-- Two distinct all-failed server summaries with identical (empty)
histograms, hence identical mean latency `0.0`. -/
def tieA : DnsResult := ⟨IpAddr.v4 1, 1, []⟩

/-- See `tieA`. -/
def tieB : DnsResult := ⟨IpAddr.v4 2, 1, []⟩

/-- C4 (counterexample): `sort_unstable_by` does not guarantee
stability.  For the input `[tieA, tieB]` — two summaries with identical
mean latency — the reversed list `[tieB, tieA]` is a valid result of the
unstable sort (a permutation in which no element compares `Greater` to a
later one), yet the pair's relative input order is not preserved in
it. -/
instance (l : List DnsResult) (a b : DnsResult) : Decidable (precedesIn l a b) :=
  inferInstanceAs (Decidable (a ∈ l ∧ b ∈ l ∧ l.indexOf a < l.indexOf b))

theorem ranking_stability_cex :
    SortUnstableResult [tieA, tieB] [tieB, tieA] ∧
    histMeanF64 tieA.hist = histMeanF64 tieB.hist ∧
    precedesIn [tieA, tieB] tieA tieB ∧
    ¬ precedesIn [tieB, tieA] tieA tieB := by
  refine ⟨⟨by decide, ?_⟩, rfl, by decide, by decide⟩
  refine List.Pairwise.cons ?_ (List.pairwise_singleton _ _)
  intro a ha
  rw [List.mem_singleton] at ha
  subst ha
  rw [sortCmp_eq_compare]
  simp only [tieA, tieB, ne_eq, Option.some.injEq]
  rw [compare_eq_iff_eq.2 rfl]
  decide

/-- C4 (amended): the ranking sorts the summaries ascending by histogram
mean latency, but with an unstable sort: every valid result is a
permutation of the input whose mean latencies are pairwise
nondecreasing; the relative order of summaries with identical mean
latency is not specified. -/
theorem ranking_sorted_permutation (input output : List DnsResult)
    (h : SortUnstableResult input output) :
    output.Perm input ∧
    output.Pairwise (fun a b => histMeanQ a.hist ≤ histMeanQ b.hist) :=
  ⟨h.1, h.2.imp (fun hab => (sortCmp_ne_gt_iff _ _).1 hab)⟩

/-- A summary with mean 2ms. -/
def slowR : DnsResult := ⟨IpAddr.v4 1, 0, [2]⟩

/-- A summary with mean 1ms. -/
def fastR : DnsResult := ⟨IpAddr.v4 2, 0, [1]⟩

theorem ranking_sorted_permutation_witness :
    SortUnstableResult [slowR, fastR] [fastR, slowR] ∧
    ([fastR, slowR] : List DnsResult).Perm [slowR, fastR] ∧
    List.Pairwise (fun a b : DnsResult => histMeanQ a.hist ≤ histMeanQ b.hist)
      [fastR, slowR] := by
  have h : SortUnstableResult [slowR, fastR] [fastR, slowR] := by
    refine ⟨by decide, ?_⟩
    refine List.Pairwise.cons ?_ (List.pairwise_singleton _ _)
    intro a ha
    rw [List.mem_singleton] at ha
    subst ha
    rw [sortCmp_ne_gt_iff]
    simp only [fastR, slowR, histMeanQ]
    norm_num
  exact ⟨h, (ranking_sorted_permutation [slowR, fastR] [fastR, slowR] h).1,
    (ranking_sorted_permutation [slowR, fastR] [fastR, slowR] h).2⟩

/-! ## The response-checking loop of `resolve` -/

theorem checkAnswer_wf (r : DnsRecord) (h : WFRecord r) :
    (r.rrType = RecType.A ∧ r.rdata = none → checkAnswer r = CheckOutcome.panic) ∧
    (¬ (r.rrType = RecType.A ∧ r.rdata = none) → checkAnswer r = CheckOutcome.ok) := by
  rcases r with ⟨t, d⟩
  cases t with
  | A =>
    cases d with
    | none => exact ⟨fun _ => rfl, fun hc => absurd ⟨rfl, rfl⟩ hc⟩
    | some rd =>
      refine ⟨fun hc => (nomatch hc.2), fun _ => ?_⟩
      rcases h.1 rfl with hnone | ⟨ip, hip⟩
      · exact nomatch hnone
      · rcases Option.some.inj hip with rfl
        rfl
  | AAAA => exact ⟨fun hc => (nomatch hc.1), fun _ => rfl⟩
  | other => exact ⟨fun hc => (nomatch hc.1), fun _ => rfl⟩

theorem checkAnswers_wf :
    ∀ answers : List DnsRecord, (∀ r ∈ answers, WFRecord r) →
      ((∃ r ∈ answers, r.rrType = RecType.A ∧ r.rdata = none) →
        checkAnswers answers = CheckOutcome.panic) ∧
      ((∀ r ∈ answers, ¬ (r.rrType = RecType.A ∧ r.rdata = none)) →
        checkAnswers answers = CheckOutcome.ok) := by
  intro answers
  induction answers with
  | nil => exact fun _ => ⟨fun hex => (by rcases hex with ⟨r, hr, _⟩; cases hr), fun _ => rfl⟩
  | cons r rest ih =>
    intro hwf
    have hr := checkAnswer_wf r (hwf r (List.mem_cons_self r rest))
    have ihr := ih (fun x hx => hwf x (List.mem_cons_of_mem r hx))
    by_cases hc : r.rrType = RecType.A ∧ r.rdata = none
    · have hpanic : checkAnswer r = CheckOutcome.panic := hr.1 hc
      have hstep : checkAnswers (r :: rest) = CheckOutcome.panic := by
        simp only [checkAnswers]
        rw [hpanic]
      exact ⟨fun _ => hstep, fun hall => absurd hc (hall r (List.mem_cons_self r rest))⟩
    · have hok : checkAnswer r = CheckOutcome.ok := hr.2 hc
      have hstep : checkAnswers (r :: rest) = checkAnswers rest := by
        simp only [checkAnswers]
        rw [hok]
      constructor
      · intro hex
        rcases hex with ⟨x, hx, hxp⟩
        rcases List.mem_cons.1 hx with rfl | hx2
        · exact absurd hxp hc
        · rw [hstep]; exact ihr.1 ⟨x, hx2, hxp⟩
      · intro hall
        rw [hstep]
        exact ihr.2 (fun x hx => hall x (List.mem_cons_of_mem r hx))

/-- C7 (counterexample): a successfully parsed response may contain an
IPv4-type answer record with an empty RDATA field (trust-dns parses a
zero RDLENGTH to a record with no data, a well-formed parse result);
on such a record the check loop's `answer.data().unwrap()` aborts the
process instead of returning an error. -/
theorem decode_panics_on_empty_rdata :
    WFRecord ⟨RecType.A, none⟩ ∧
    checkAnswers [⟨RecType.A, none⟩] = CheckOutcome.panic ∧
    decodePhase (Except.ok [⟨RecType.A, none⟩]) = CheckOutcome.panic ∧
    CheckOutcome.panic ≠ CheckOutcome.error :=
  ⟨⟨fun _ => Or.inl rfl, fun h => nomatch h⟩, by decide, by decide, by decide⟩

/-- C7 (amended): a malformed or truncated buffer makes
`Message::from_vec` fail and the failure is surfaced to the caller as an
error, never swallowed; in a successfully parsed response, however, the
only reachable failure of the per-answer check is an abort: an IPv4-type
answer whose RDATA is empty hits the `unwrap` panic, while every other
answer passes (parsed address-typed records otherwise always carry a
valid address payload, so the invalid-address error branch is
unreachable). -/
theorem decode_surfaces_errors :
    decodePhase (Except.error ()) = CheckOutcome.error ∧
    (∀ answers : List DnsRecord, (∀ r ∈ answers, WFRecord r) →
      ((∃ r ∈ answers, r.rrType = RecType.A ∧ r.rdata = none) →
        decodePhase (Except.ok answers) = CheckOutcome.panic) ∧
      ((∀ r ∈ answers, ¬ (r.rrType = RecType.A ∧ r.rdata = none)) →
        decodePhase (Except.ok answers) = CheckOutcome.ok) ∧
      decodePhase (Except.ok answers) ≠ CheckOutcome.error) := by
  refine ⟨rfl, ?_⟩
  intro answers hwf
  have h := checkAnswers_wf answers hwf
  refine ⟨h.1, h.2, ?_⟩
  by_cases hex : ∃ r ∈ answers, r.rrType = RecType.A ∧ r.rdata = none
  · rw [show decodePhase (Except.ok answers) = checkAnswers answers from rfl, h.1 hex]
    decide
  · push_neg at hex
    rw [show decodePhase (Except.ok answers) = checkAnswers answers from rfl,
      h.2 (fun r hr => by
        intro hc
        exact absurd hc.2 (hex r hr hc.1))]
    decide

/-- Parsed answers with no empty-RDATA IPv4 record: an AAAA answer, an A
answer with a proper IPv4 payload, and an unrelated record. -/
def ansOk : List DnsRecord :=
  [⟨RecType.AAAA, some (RData.aaaa (IpAddr.v6 1))⟩,
   ⟨RecType.A, some (RData.a (IpAddr.v4 9))⟩,
   ⟨RecType.other, none⟩]

/-- Parsed answers whose second record is an IPv4 record with empty
RDATA. -/
def ansPanic : List DnsRecord :=
  [⟨RecType.A, some (RData.a (IpAddr.v4 9))⟩, ⟨RecType.A, none⟩]

theorem decode_surfaces_errors_witness :
    decodePhase (Except.error ()) = CheckOutcome.error ∧
    decodePhase (Except.ok ansPanic) = CheckOutcome.panic ∧
    decodePhase (Except.ok ansOk) = CheckOutcome.ok ∧
    decodePhase (Except.ok ansOk) ≠ CheckOutcome.error := by
  have hwfOk : ∀ r ∈ ansOk, WFRecord r := by
    intro r hr
    rcases List.mem_cons.1 hr with rfl | hr
    · exact ⟨fun h => (nomatch h), fun _ => Or.inr ⟨IpAddr.v6 1, rfl⟩⟩
    rcases List.mem_cons.1 hr with rfl | hr
    · exact ⟨fun _ => Or.inr ⟨IpAddr.v4 9, rfl⟩, fun h => nomatch h⟩
    rcases List.mem_cons.1 hr with rfl | hr
    · exact ⟨fun h => (nomatch h), fun h => (nomatch h)⟩
    · cases hr
  have hwfPanic : ∀ r ∈ ansPanic, WFRecord r := by
    intro r hr
    rcases List.mem_cons.1 hr with rfl | hr
    · exact ⟨fun _ => Or.inr ⟨IpAddr.v4 9, rfl⟩, fun h => nomatch h⟩
    rcases List.mem_cons.1 hr with rfl | hr
    · exact ⟨fun _ => Or.inl rfl, fun h => nomatch h⟩
    · cases hr
  exact ⟨decode_surfaces_errors.1,
    (decode_surfaces_errors.2 ansPanic hwfPanic).1
      ⟨⟨RecType.A, none⟩, by decide, rfl, rfl⟩,
    (decode_surfaces_errors.2 ansOk hwfOk).2.1 (by decide),
    (decode_surfaces_errors.2 ansOk hwfOk).2.2⟩

/-! ## The encoded query message -/

/-- C9: the query message built for a domain and a fresh 16-bit id is a
single standard query: it carries the given id, the query message-type
flag, the recursion-desired flag set, the standard-query opcode, and
exactly one question, of IPv4 address-record type, for the domain. -/
theorem query_message_fields (domain : String) (id : ℕ) (h : id < 65536) :
    (buildQuery domain id).id = id ∧
    (buildQuery domain id).id < 65536 ∧
    (buildQuery domain id).messageType = MessageType.query ∧
    (buildQuery domain id).recursionDesired = true ∧
    (buildQuery domain id).opCode = OpCode.query ∧
    (buildQuery domain id).queries = [⟨domain, RecType.A⟩] ∧
    (buildQuery domain id).queries.length = 1 :=
  ⟨rfl, h, rfl, rfl, rfl, rfl, rfl⟩

theorem query_message_fields_witness :
    (3 < 65536) ∧
    ((buildQuery "example.com." 3).id = 3 ∧
      (buildQuery "example.com." 3).id < 65536 ∧
      (buildQuery "example.com." 3).messageType = MessageType.query ∧
      (buildQuery "example.com." 3).recursionDesired = true ∧
      (buildQuery "example.com." 3).opCode = OpCode.query ∧
      (buildQuery "example.com." 3).queries = [⟨"example.com.", RecType.A⟩] ∧
      (buildQuery "example.com." 3).queries.length = 1) :=
  ⟨by decide, query_message_fields "example.com." 3 (by decide)⟩

/-! ## The fixed 512-byte receive buffer -/

theorem decoderInput_length (datagram : List ℕ) : (decoderInput datagram).length = 512 := by
  simp only [decoderInput, recvFrom, List.length_append, List.length_take,
    List.length_drop, List.length_replicate]
  omega

theorem decoderInput_pad (datagram : List ℕ) (h : datagram.length ≤ 512) :
    decoderInput datagram = datagram ++ List.replicate (512 - datagram.length) 0 := by
  simp only [decoderInput, recvFrom, List.length_replicate]
  rw [List.take_of_length_le h, List.drop_replicate, Nat.min_eq_right h]

theorem decoderInput_truncates (datagram : List ℕ) :
    decoderInput datagram = decoderInput (datagram.take 512) := by
  simp only [decoderInput, recvFrom, List.length_replicate, List.take_take,
    List.length_take, List.drop_replicate, Nat.min_self]
  congr 2
  omega

theorem decoderInput_zero_ext (datagram : List ℕ) (h : datagram.length < 512) :
    decoderInput (datagram ++ [0]) = decoderInput datagram := by
  have h1 : (datagram ++ [0]).length ≤ 512 := by
    simp only [List.length_append, List.length_singleton]
    omega
  rw [decoderInput_pad _ h1, decoderInput_pad _ (le_of_lt h), List.append_assoc]
  congr 1
  have h2 : 512 - datagram.length = (512 - (datagram ++ [0]).length) + 1 := by
    simp only [List.length_append, List.length_singleton]
    omega
  rw [h2, List.replicate_succ]
  rfl

/-- C10: the decoder sees the whole fixed 512-byte buffer, never the
received byte count.  For every received datagram, the buffer passed to
`Message::from_vec` always has length 512; for a datagram of at most 512
bytes it is the datagram zero-padded to 512 bytes; a longer datagram is
truncated to its first 512 bytes; and because the received byte count is
dropped, appending a zero byte to a short datagram yields the very same
decoder input. -/
theorem fixed_buffer_decode (datagram : List ℕ) :
    (decoderInput datagram).length = 512 ∧
    (datagram.length ≤ 512 →
      decoderInput datagram = datagram ++ List.replicate (512 - datagram.length) 0) ∧
    decoderInput datagram = decoderInput (datagram.take 512) ∧
    (datagram.length < 512 → decoderInput (datagram ++ [0]) = decoderInput datagram) ∧
    (recvFrom (List.replicate 512 0) datagram).2 = min 512 datagram.length := by
  refine ⟨decoderInput_length datagram, decoderInput_pad datagram,
    decoderInput_truncates datagram, decoderInput_zero_ext datagram, ?_⟩
  simp only [recvFrom, List.length_replicate]

theorem fixed_buffer_decode_witness :
    (decoderInput [1, 2, 3]).length = 512 ∧
    decoderInput [1, 2, 3] = [1, 2, 3] ++ List.replicate (512 - 3) 0 ∧
    decoderInput [1, 2, 3] = decoderInput ([1, 2, 3].take 512) ∧
    decoderInput ([1, 2, 3] ++ [0]) = decoderInput [1, 2, 3] ∧
    (recvFrom (List.replicate 512 0) [1, 2, 3]).2 = min 512 3 :=
  ⟨(fixed_buffer_decode [1, 2, 3]).1,
    (fixed_buffer_decode [1, 2, 3]).2.1 (by decide),
    (fixed_buffer_decode [1, 2, 3]).2.2.1,
    (fixed_buffer_decode [1, 2, 3]).2.2.2.1 (by decide),
    (fixed_buffer_decode [1, 2, 3]).2.2.2.2⟩

end DnsBench
